import Mathlib

/-!
Verification of the asynchronous sinc resampler (camillaresampler).

The Rust sources `src/asynchro_sinc.rs` and `src/lib.rs` are shallowly embedded
below.  Floating-point (`f64`, sample type `T`) arithmetic is embedded as exact
rational arithmetic over ℚ; the saturating Rust casts `.floor() as usize`,
`.ceil() as usize` and `expr as usize` are embedded via `Int.toNat` composed
with floor/ceil.  A Rust panic (e.g. a length mismatch in `copy_from_slice`,
or an out-of-bounds slice) is embedded as the `none` value of an `Option`
result.  Components of the crate that are not part of the two given sources
(the `Fixed` enum, the error enum, the tap locator of the `interpolation`
module) are modelled from the specification as noted on their definitions;
the sinc interpolation kernel is kept abstract, exactly as in the source,
where `new_with_interpolator` receives it as a boxed trait object.
-/

namespace Rubato

/-- A single channel of samples (`Vec<T>` with `T` a float type, embedded as ℚ). -/
abbrev Buf := List ℚ

/-- A non-interleaved multi-channel buffer (`Vec<Vec<T>>` / `&[AsRef<[T]>]`). -/
abbrev Wave := List Buf

/-- Modelled from the spec: the chunk-size mode enum `Fixed {Input, Output}`
(defined in `asynchro_fast.rs`, which is not among the given sources;
the spec, section 3, defines it as this two-variant enum). -/
inductive Fixed
  | Input
  | Output
  deriving DecidableEq, Repr

/-- Interpolation methods, from `asynchro_sinc.rs` (`SincInterpolationType`). -/
inductive SincInterpolationType
  | Cubic
  | Quadratic
  | Linear
  | Nearest
  deriving DecidableEq, Repr

/-- Modelled from the spec: the error enumeration of `error.rs` (not among the
given sources).  Variants and payloads follow spec section 7 and the
construction sites in `lib.rs` / `asynchro_sinc.rs`. -/
inductive ResampleError
  | WrongNumberOfInputChannels (expected actual : ℕ)
  | WrongNumberOfMaskChannels (expected actual : ℕ)
  | WrongNumberOfOutputChannels (expected actual : ℕ)
  | InsufficientInputBufferSize (channel expected actual : ℕ)
  | InsufficientOutputBufferSize (channel expected actual : ℕ)
  | RatioOutOfBounds (provided original max_relative_ratio : ℚ)
  | InvalidChunkSize (max requested : ℕ)
  deriving DecidableEq, Repr

/-- Modelled from the spec: the construction error enumeration of `error.rs`
(not among the given sources); spec section 7 lists the two variants. -/
inductive ResamplerConstructionError
  | InvalidRatio (ratio : ℚ)
  | InvalidRelativeRatio (ratio : ℚ)
  deriving DecidableEq, Repr

instance {e a : Type} [DecidableEq e] [DecidableEq a] : DecidableEq (Except e a) := fun x y =>
  match x, y with
  | .ok v, .ok w => if h : v = w then .isTrue (by rw [h]) else .isFalse (by simp [h])
  | .error v, .error w => if h : v = w then .isTrue (by rw [h]) else .isFalse (by simp [h])
  | .ok _, .error _ => .isFalse (by simp)
  | .error _, .ok _ => .isFalse (by simp)

/-- The sinc interpolation kernel.  In the source it is a boxed
`dyn SincInterpolator<T>` trait object with capabilities
`len`, `nbr_sincs` and `get_sinc_interpolated`; it is kept abstract here
exactly as `new_with_interpolator` receives it. -/
structure SincInterpolator where
  len : ℕ
  nbr_sincs : ℕ
  get_sinc_interpolated : Buf → ℕ → ℕ → ℚ

/-- Rust saturating cast `f64 as usize` for a nonnegative-or-clamped value:
truncation toward zero, negative values clamp to 0.  For `x < 0` both
truncation and floor clamp to 0, and for `x ≥ 0` truncation equals floor,
so `Int.toNat ∘ Int.floor` is the cast on every input. -/
def f64_as_usize (x : ℚ) : ℕ := (⌊x⌋).toNat

/-- Rust `x.ceil() as usize` (saturating at 0 for negative values). -/
def ceil_as_usize (x : ℚ) : ℕ := (⌈x⌉).toNat

/-- Perform cubic polynomial interpolation to get value at x
(`interp_cubic` in `asynchro_sinc.rs`).  Input points are at x = −1, 0, 1, 2. -/
def interp_cubic (x : ℚ) (yvals : Fin 4 → ℚ) : ℚ :=
  let a0 := yvals 1
  let a1 := -(1 / 3) * yvals 0 - (1/2) * yvals 1 + yvals 2 - (1 / 6) * yvals 3
  let a2 := (1/2) * (yvals 0 + yvals 2) - yvals 1
  let a3 := (1/2) * (yvals 1 - yvals 2) + (1 / 6) * (yvals 3 - yvals 0)
  let x2 := x * x
  let x3 := x2 * x
  a0 + a1 * x + a2 * x2 + a3 * x3

/-- Perform quadratic polynomial interpolation to get value at x
(`interp_quad` in `asynchro_sinc.rs`).  Input points are at x = 0, 1, 2. -/
def interp_quad (x : ℚ) (yvals : Fin 3 → ℚ) : ℚ :=
  let a2 := yvals 0 - 2 * yvals 1 + yvals 2
  let a1 := -3 * yvals 0 + 4 * yvals 1 - yvals 2
  let a0 := 2 * yvals 0
  let x2 := x * x
  (1/2) * (a0 + a1 * x + a2 * x2)

/-- Perform linear interpolation between two points at x=0 and x=1
(`interp_lin` in `asynchro_sinc.rs`). -/
def interp_lin (x : ℚ) (yvals : Fin 2 → ℚ) : ℚ :=
  yvals 0 + x * (yvals 1 - yvals 0)

/-- `validate_ratios` from `asynchro_sinc.rs`. -/
def validate_ratios (resample_ratio max_resample_ratio_relative : ℚ) :
    Except ResamplerConstructionError Unit :=
  if resample_ratio ≤ 0 then
    .error (.InvalidRatio resample_ratio)
  else if max_resample_ratio_relative < 1 then
    .error (.InvalidRelativeRatio max_resample_ratio_relative)
  else
    .ok ()

/-- Modelled from the spec: the nearest-tap locator of the `interpolation`
module (not among the given sources).  Spec section 4.5: with
`p = ⌊idx·O⌋`, the cubic taps sit at `q = p−1, p, p+1, p+2`; each tap gives
the pair (sample offset `⌊q/O⌋`, sub-filter `q mod O`) with mathematical
(non-negative) modulo. -/
def get_nearest_times_4 (t : ℚ) (factor : ℤ) : Fin 4 → ℤ × ℤ :=
  fun i =>
    let q := ⌊t * (factor : ℚ)⌋ + (i : ℤ) - 1
    (q.fdiv factor, q.emod factor)

/-- Modelled from the spec: quadratic taps at `q = p, p+1, p+2` (spec 4.5). -/
def get_nearest_times_3 (t : ℚ) (factor : ℤ) : Fin 3 → ℤ × ℤ :=
  fun i =>
    let q := ⌊t * (factor : ℚ)⌋ + (i : ℤ)
    (q.fdiv factor, q.emod factor)

/-- Modelled from the spec: linear taps at `q = p, p+1` (spec 4.5). -/
def get_nearest_times_2 (t : ℚ) (factor : ℤ) : Fin 2 → ℤ × ℤ :=
  fun i =>
    let q := ⌊t * (factor : ℚ)⌋ + (i : ℤ)
    (q.fdiv factor, q.emod factor)

/-- Modelled from the spec: the single nearest tap `(⌊p/O⌋, p mod O)` (spec 4.5). -/
def get_nearest_time (t : ℚ) (factor : ℤ) : ℤ × ℤ :=
  let p := ⌊t * (factor : ℚ)⌋
  (p.fdiv factor, p.emod factor)

/-- The streaming resampler state, struct `Sinc<T>` of `asynchro_sinc.rs`. -/
@[ext] structure Sinc where
  nbr_channels : ℕ
  chunk_size : ℕ
  max_chunk_size : ℕ
  needed_input_size : ℕ
  needed_output_size : ℕ
  last_index : ℚ
  current_buffer_fill : ℕ
  resample_ratio : ℚ
  resample_ratio_original : ℚ
  target_ratio : ℚ
  max_relative_ratio : ℚ
  interpolator : SincInterpolator
  buffer : Wave
  interpolation : SincInterpolationType
  channel_mask : List Bool
  fixed : Fixed

/-- `Sinc::calculate_input_size`. -/
def calculate_input_size (chunk_size : ℕ) (resample_ratio target_ratio last_index : ℚ)
    (interpolator_len : ℕ) (fixed : Fixed) : ℕ :=
  match fixed with
  | .Input => chunk_size
  | .Output =>
      ceil_as_usize (last_index
        + (chunk_size : ℚ) / ((1/2) * resample_ratio + (1/2) * target_ratio)
        + (interpolator_len : ℚ))

/-- `Sinc::calculate_output_size`. -/
def calculate_output_size (chunk_size : ℕ) (resample_ratio target_ratio last_index : ℚ)
    (interpolator_len : ℕ) (fixed : Fixed) : ℕ :=
  match fixed with
  | .Output => chunk_size
  | .Input =>
      f64_as_usize (((chunk_size : ℚ) - ((interpolator_len : ℚ) + 1) - last_index)
        * ((1/2) * resample_ratio + (1/2) * target_ratio))

/-- `Sinc::calculate_max_input_size`. -/
def calculate_max_input_size (chunk_size : ℕ) (resample_ratio_original max_relative_ratio : ℚ)
    (interpolator_len : ℕ) (fixed : Fixed) : ℕ :=
  match fixed with
  | .Input => chunk_size
  | .Output =>
      ceil_as_usize ((chunk_size : ℚ) / resample_ratio_original * max_relative_ratio)
        + 2 + interpolator_len / 2

/-- `Sinc::calculate_max_output_size`. -/
def calculate_max_output_size (chunk_size : ℕ) (resample_ratio_original max_relative_ratio : ℚ)
    (fixed : Fixed) : ℕ :=
  match fixed with
  | .Output => chunk_size
  | .Input =>
      f64_as_usize ((chunk_size : ℚ) * resample_ratio_original * max_relative_ratio + 10)

/-- `Sinc::update_lengths`. -/
def update_lengths (s : Sinc) : Sinc :=
  { s with
    needed_input_size := calculate_input_size s.chunk_size s.resample_ratio s.target_ratio
      s.last_index s.interpolator.len s.fixed
    needed_output_size := calculate_output_size s.chunk_size s.resample_ratio s.target_ratio
      s.last_index s.interpolator.len s.fixed }

/-- `Sinc::new_with_interpolator`. -/
def new_with_interpolator (resample_ratio max_resample_ratio_relative : ℚ)
    (interpolation_type : SincInterpolationType) (interpolator : SincInterpolator)
    (chunk_size nbr_channels : ℕ) (fixed : Fixed) :
    Except ResamplerConstructionError Sinc :=
  match validate_ratios resample_ratio max_resample_ratio_relative with
  | .error e => .error e
  | .ok _ =>
    let interpolator_len := interpolator.len
    let last_index : ℚ := -(interpolator_len : ℚ) / 2
    let needed_input_size := calculate_input_size chunk_size resample_ratio resample_ratio
      last_index interpolator_len fixed
    let needed_output_size := calculate_output_size chunk_size resample_ratio resample_ratio
      last_index interpolator_len fixed
    let buffer_len := calculate_max_input_size chunk_size resample_ratio
      max_resample_ratio_relative interpolator_len fixed + 2 * interpolator_len
    .ok
      { nbr_channels := nbr_channels
        chunk_size := chunk_size
        max_chunk_size := chunk_size
        needed_input_size := needed_input_size
        needed_output_size := needed_output_size
        last_index := -((interpolator.len / 2 : ℕ) : ℚ)
        current_buffer_fill := needed_input_size
        resample_ratio := resample_ratio
        resample_ratio_original := resample_ratio
        target_ratio := resample_ratio
        max_relative_ratio := max_resample_ratio_relative
        interpolator := interpolator
        buffer := List.replicate nbr_channels (List.replicate buffer_len 0)
        interpolation := interpolation_type
        channel_mask := List.replicate nbr_channels true
        fixed := fixed }

/-- Helper to make a mask where all channels are marked as active
(`update_mask_from_buffers` in `lib.rs`; it sets every entry to true). -/
def update_mask_from_buffers (mask : List Bool) : List Bool :=
  mask.map fun _ => true

/-- First active channel whose buffer is shorter than the given minimum,
together with its actual length.  This is the search performed by the two
`for … .filter(|(chan, _)| mask[*chan])` loops of `validate_buffers`,
in iteration order. -/
def firstShortChannel (minLen : ℕ) : ℕ → List Bool → Wave → Option (ℕ × ℕ)
  | _, [], _ => none
  | _, _ :: _, [] => none
  | i, a :: ms, w :: ws =>
    if a ∧ w.length < minLen then some (i, w.length)
    else firstShortChannel minLen (i + 1) ms ws

/-- `validate_buffers` from `lib.rs`.  Checks are performed in source order;
note the source reports `wave_in.len()` as the `actual` payload of
`WrongNumberOfMaskChannels`. -/
def validate_buffers (wave_in wave_out : Wave) (mask : List Bool)
    (channels min_input_len min_output_len : ℕ) : Except ResampleError Unit :=
  if wave_in.length ≠ channels then
    .error (.WrongNumberOfInputChannels channels wave_in.length)
  else if mask.length ≠ channels then
    .error (.WrongNumberOfMaskChannels channels wave_in.length)
  else
    match firstShortChannel min_input_len 0 mask wave_in with
    | some (chan, actual) => .error (.InsufficientInputBufferSize chan min_input_len actual)
    | none =>
      if wave_out.length ≠ channels then
        .error (.WrongNumberOfOutputChannels channels wave_out.length)
      else
        match firstShortChannel min_output_len 0 mask wave_out with
        | some (chan, actual) => .error (.InsufficientOutputBufferSize chan min_output_len actual)
        | none => .ok ()

/-- Rust `buf.copy_within(start..start+len2, 0)`: the slice of `len2` elements
starting at `start` is copied to the head; the tail from position `len2` on is
unchanged.  Callers check `start + len2 ≤ buf.length` (the source panics
otherwise), under which this is length-preserving. -/
def copy_within (buf : Buf) (start len2 : ℕ) : Buf :=
  (buf.drop start).take len2 ++ buf.drop len2

/-- Rust `dest[start..start+src.len()].copy_from_slice(&src)`: length-preserving
when `start + src.length ≤ dest.length` (the source panics otherwise). -/
def set_slice (dest : Buf) (start : ℕ) (src : Buf) : Buf :=
  dest.take start ++ src ++ dest.drop (start + src.length)

/-- Ingest step of `process_into_buffer`: for every active channel, copy the
first `needed` input frames into the ring buffer at offset `start = 2·sinc_len`. -/
def ingest (mask : List Bool) (bufs : Wave) (wave_in : Wave) (start needed : ℕ) : Wave :=
  (mask.zip (bufs.zip wave_in)).map fun p =>
    if p.1 then set_slice p.2.1 start (p.2.2.take needed) else p.2.1

/-- The mutable state of the per-sample output loop of `process_into_buffer`:
the ramped step `t_ratio`, the fractional cursor `idx`, and the output buffer
being filled. -/
structure LoopSt where
  t_ratio : ℚ
  idx : ℚ
  wave_out : Wave

/-- Write one computed output sample into every active channel at frame `n`
(`wave_out[chan].as_mut()[n] = …` inside the loops of `process_into_buffer`). -/
def writeActive (mask : List Bool) (bufs outs : Wave) (n : ℕ) (value : Buf → ℚ) : Wave :=
  (mask.zip (bufs.zip outs)).map fun p =>
    if p.1 then p.2.2.set n (value p.2.1) else p.2.2

/-- One iteration of the output loop of `process_into_buffer`: advance the
ramped step and the cursor, locate the nearest oversampled taps, evaluate the
kernel for every active channel and polynomial-interpolate the tap values. -/
def sincProcessSample (s : Sinc) (st : LoopSt) (t_ratio_increment : ℚ) (n : ℕ) : LoopSt :=
  let t_ratio := st.t_ratio + t_ratio_increment
  let idx := st.idx + t_ratio
  let sinc_len := s.interpolator.len
  let oversampling_factor : ℤ := (s.interpolator.nbr_sincs : ℤ)
  let frac := idx * (oversampling_factor : ℚ) - (⌊idx * (oversampling_factor : ℚ)⌋ : ℚ)
  let kern := fun (p : ℤ × ℤ) (buf : Buf) =>
    s.interpolator.get_sinc_interpolated buf (p.1 + 2 * (sinc_len : ℤ)).toNat p.2.toNat
  let value := fun (buf : Buf) =>
    match s.interpolation with
    | .Cubic =>
        let nearest := get_nearest_times_4 idx oversampling_factor
        interp_cubic frac
          ![kern (nearest 0) buf, kern (nearest 1) buf, kern (nearest 2) buf, kern (nearest 3) buf]
    | .Quadratic =>
        let nearest := get_nearest_times_3 idx oversampling_factor
        interp_quad frac
          ![kern (nearest 0) buf, kern (nearest 1) buf, kern (nearest 2) buf]
    | .Linear =>
        let nearest := get_nearest_times_2 idx oversampling_factor
        interp_lin frac
          ![kern (nearest 0) buf, kern (nearest 1) buf]
    | .Nearest =>
        kern (get_nearest_time idx oversampling_factor) buf
  { t_ratio := t_ratio, idx := idx,
    wave_out := writeActive s.channel_mask s.buffer st.wave_out n value }

/-- Body of `Resampler::process_into_buffer` for `Sinc<T>` after the channel
mask has been stored: validation, history shift, ingest, the output loop, and
the state update.  The result is `none` when the source would panic on an
out-of-range ring-buffer shift or ingest slice. -/
def process_into_buffer_core (s : Sinc) (wave_in wave_out : Wave) :
    Option (Except ResampleError (ℕ × ℕ) × Sinc × Wave) :=
  match validate_buffers wave_in wave_out s.channel_mask s.nbr_channels
      s.needed_input_size s.needed_output_size with
  | .error e => some (.error e, s, wave_out)
  | .ok _ =>
    let sinc_len := s.interpolator.len
    let t_ratio : ℚ := 1 / s.resample_ratio
    let t_ratio_end : ℚ := 1 / s.target_ratio
    let t_ratio_increment := (t_ratio_end - t_ratio) / (s.needed_output_size : ℚ)
    if ∀ buf ∈ s.buffer, s.needed_input_size + 2 * sinc_len ≤ buf.length then
      let s := { s with
        buffer := s.buffer.map fun buf => copy_within buf s.needed_input_size (2 * sinc_len) }
      let s := { s with
        buffer := ingest s.channel_mask s.buffer wave_in (2 * sinc_len) s.needed_input_size }
      let init : LoopSt := { t_ratio := t_ratio, idx := s.last_index, wave_out := wave_out }
      let final := (List.range s.needed_output_size).foldl
        (fun st n => sincProcessSample s st t_ratio_increment n) init
      let input_size := s.needed_input_size
      let output_size := s.needed_output_size
      let s := { s with
        last_index := final.idx - (s.needed_input_size : ℚ)
        resample_ratio := s.target_ratio }
      some (.ok (input_size, output_size), update_lengths s, final.wave_out)
    else none

/-- `Resampler::process_into_buffer` for `Sinc<T>` (`asynchro_sinc.rs`):
store the supplied channel mask (or set all channels active) and run the
core.  The result is `none` when the source would panic: a supplied mask
whose length differs from the stored channel mask makes the
`copy_from_slice` at the top panic. -/
def process_into_buffer (s : Sinc) (wave_in wave_out : Wave)
    (active_channels_mask : Option (List Bool)) :
    Option (Except ResampleError (ℕ × ℕ) × Sinc × Wave) :=
  match active_channels_mask with
  | some mask =>
      if mask.length = s.channel_mask.length then
        process_into_buffer_core { s with channel_mask := mask } wave_in wave_out
      else none
  | none =>
      process_into_buffer_core
        { s with channel_mask := update_mask_from_buffers s.channel_mask } wave_in wave_out

/-- `Resampler::output_frames_max`. -/
def output_frames_max (s : Sinc) : ℕ :=
  calculate_max_output_size s.max_chunk_size s.resample_ratio_original s.max_relative_ratio s.fixed

/-- `Resampler::output_frames_next`. -/
def output_frames_next (s : Sinc) : ℕ := s.needed_output_size

/-- `Resampler::input_frames_max`. -/
def input_frames_max (s : Sinc) : ℕ :=
  calculate_max_input_size s.max_chunk_size s.resample_ratio_original s.max_relative_ratio
    s.interpolator.len s.fixed

/-- `Resampler::input_frames_next`. -/
def input_frames_next (s : Sinc) : ℕ := s.needed_input_size

/-- `Resampler::set_resample_ratio` for `Sinc<T>`. -/
def set_resample_ratio (s : Sinc) (new_ratio : ℚ) (ramp : Bool) :
    Except ResampleError Unit × Sinc :=
  if new_ratio / s.resample_ratio_original ≥ 1 / s.max_relative_ratio ∧
      new_ratio / s.resample_ratio_original ≤ s.max_relative_ratio then
    let s := if ramp then s else { s with resample_ratio := new_ratio }
    let s := { s with target_ratio := new_ratio }
    (.ok (), update_lengths s)
  else
    (.error (.RatioOutOfBounds new_ratio s.resample_ratio_original s.max_relative_ratio), s)

/-- `Resampler::set_resample_ratio_relative` for `Sinc<T>`. -/
def set_resample_ratio_relative (s : Sinc) (rel_ratio : ℚ) (ramp : Bool) :
    Except ResampleError Unit × Sinc :=
  set_resample_ratio s (s.resample_ratio_original * rel_ratio) ramp

/-- `Resampler::reset` for `Sinc<T>`. -/
def reset (s : Sinc) : Sinc :=
  update_lengths { s with
    buffer := s.buffer.map fun ch => ch.map fun _ => 0
    channel_mask := s.channel_mask.map fun _ => true
    last_index := -((s.interpolator.len / 2 : ℕ) : ℚ)
    resample_ratio := s.resample_ratio_original
    target_ratio := s.resample_ratio_original
    chunk_size := s.max_chunk_size }

/-- `Resampler::set_chunk_size` for `Sinc<T>`. -/
def set_chunk_size (s : Sinc) (chunksize : ℕ) : Except ResampleError Unit × Sinc :=
  if chunksize > s.max_chunk_size ∨ chunksize = 0 then
    (.error (.InvalidChunkSize s.max_chunk_size chunksize), s)
  else
    (.ok (), { s with chunk_size := chunksize })

/-- `Resampler::process` (the allocating convenience wrapper in `lib.rs`).
`none` models the panics of the source: indexing a too-short mask during
output allocation, or a panic inside `process_into_buffer`. -/
def process (s : Sinc) (wave_in : Wave) (active_channels_mask : Option (List Bool)) :
    Option (Except ResampleError Wave × Sinc) :=
  let frames := output_frames_next s
  let alloc : Option Wave :=
    match active_channels_mask with
    | some mask =>
        if s.nbr_channels ≤ mask.length then
          some ((List.range s.nbr_channels).map fun chan =>
            if mask.getD chan false then List.replicate frames 0 else [])
        else none
    | none => some (List.replicate s.nbr_channels (List.replicate frames 0))
  match alloc with
  | none => none
  | some wave_out =>
    match process_into_buffer s wave_in wave_out active_channels_mask with
    | none => none
    | some (.error e, s', _) => some (.error e, s')
    | some (.ok r, s', out') => some (.ok (out'.map fun ch => ch.take r.2), s')

/-- The `process_partial_into_buffer` default method of the `Resampler` trait
(`lib.rs`): build a padded input of `nbr_channels` channels, each initially
`input_frames_next` zeros; for each supplied channel copy at most
`input_frames_next` frames over the zeros, and clear the padded channel
entirely when the supplied channel is empty; then call `process_into_buffer`. -/
def processPartialIntoBuffer (s : Sinc) (wave_in : Option Wave) (wave_out : Wave)
    (active_channels_mask : Option (List Bool)) :
    Option (Except ResampleError (ℕ × ℕ) × Sinc × Wave) :=
  let frames := input_frames_next s
  let wave_in_padded : Wave := List.replicate s.nbr_channels (List.replicate frames 0)
  let wave_in_padded :=
    match wave_in with
    | none => wave_in_padded
    | some input =>
        ((input.zip wave_in_padded).map fun p =>
          let frames_in := min p.1.length frames
          if 0 < frames_in then p.1.take frames_in ++ p.2.drop frames_in
          else []) ++ wave_in_padded.drop input.length
  process_into_buffer s wave_in_padded wave_out active_channels_mask

/-- Chunk-by-chunk driving of `process` over a stream of (input, mask) pairs,
collecting the per-chunk results and the final state. -/
def runProcess (s : Sinc) :
    List (Wave × Option (List Bool)) → Option (List (Except ResampleError Wave) × Sinc)
  | [] => some ([], s)
  | c :: rest =>
    match process s c.1 c.2 with
    | none => none
    | some (r, s') =>
      match runProcess s' rest with
      | none => none
      | some (rs, sf) => some (r :: rs, sf)

/-- A `process_into_buffer` call that must return `Ok`; used to chain legal
operation sequences. -/
def procOk (win wout : Wave) (m : Option (List Bool)) (s : Sinc) : Option Sinc :=
  match process_into_buffer s win wout m with
  | some (.ok _, s', _) => some s'
  | _ => none

/-- A `set_resample_ratio` call that must return `Ok`. -/
def setRatioOk (r : ℚ) (ramp : Bool) (s : Sinc) : Option Sinc :=
  match set_resample_ratio s r ramp with
  | (.ok _, s') => some s'
  | _ => none

/-- A `set_chunk_size` call that must return `Ok`. -/
def setChunkOk (n : ℕ) (s : Sinc) : Option Sinc :=
  match set_chunk_size s n with
  | (.ok _, s') => some s'
  | _ => none

/-- The cursor value after `k` iterations of the output loop of
`process_into_buffer` started on state `s` (the loop state component that is
independent of the ring buffers and of the output buffer). -/
def processCursor (s : Sinc) (k : ℕ) : ℚ :=
  let t_ratio : ℚ := 1 / s.resample_ratio
  let t_ratio_increment := (1 / s.target_ratio - t_ratio) / (s.needed_output_size : ℚ)
  ((List.range k).foldl (fun st n => sincProcessSample s st t_ratio_increment n)
    { t_ratio := t_ratio, idx := s.last_index, wave_out := [] }).idx

/-- The input padding stated by the specification for
`process_partial_into_buffer`: zero-pad each supplied channel to
`input_frames_next` frames, truncating channels that have more; with no
input, an all-zero input of full length for every channel. -/
def specZeroPadInput (s : Sinc) (wave_in : Option Wave) : Wave :=
  let frames := input_frames_next s
  match wave_in with
  | none => List.replicate s.nbr_channels (List.replicate frames 0)
  | some input => input.map fun ch => ch.take frames ++ List.replicate (frames - ch.length) 0

/-- The input padding actually performed by the source code of
`process_partial_into_buffer`: channels beyond those supplied are full
zeros, an empty supplied channel stays empty, a nonempty supplied channel is
truncated to `input_frames_next` frames and zero-padded up to that length;
supplied channels beyond `nbr_channels` are ignored. -/
def sourcePadInput (s : Sinc) (wave_in : Option Wave) : Wave :=
  let frames := input_frames_next s
  match wave_in with
  | none => List.replicate s.nbr_channels (List.replicate frames 0)
  | some input =>
      (List.range s.nbr_channels).map fun i =>
        match input[i]? with
        | none => List.replicate frames 0
        | some ch =>
            if ch.length = 0 then []
            else ch.take frames ++ List.replicate (frames - ch.length) 0

/-- States reachable by a legal sequence of construction, processing, ratio
changes, chunk-size changes and resets. -/
inductive Reachable : Sinc → Prop
  | init (resample_ratio max_rel : ℚ) (ty : SincInterpolationType)
      (interp : SincInterpolator) (chunk_size nbr_channels : ℕ) (fixed : Fixed) (s : Sinc)
      (h : new_with_interpolator resample_ratio max_rel ty interp
        chunk_size nbr_channels fixed = .ok s) : Reachable s
  | step_process (s : Sinc) (win wout : Wave) (m : Option (List Bool))
      (r : Except ResampleError (ℕ × ℕ)) (s' : Sinc) (out' : Wave)
      (hs : Reachable s) (h : process_into_buffer s win wout m = some (r, s', out')) :
      Reachable s'
  | step_set_ratio (s : Sinc) (nr : ℚ) (ramp : Bool) (hs : Reachable s) :
      Reachable (set_resample_ratio s nr ramp).2
  | step_set_ratio_relative (s : Sinc) (rel : ℚ) (ramp : Bool) (hs : Reachable s) :
      Reachable (set_resample_ratio_relative s rel ramp).2
  | step_set_chunk_size (s : Sinc) (n : ℕ) (hs : Reachable s) :
      Reachable (set_chunk_size s n).2
  | step_reset (s : Sinc) (hs : Reachable s) : Reachable (reset s)

/-- The channel mask stored at the top of `process_into_buffer`: the supplied
mask, or all-true when no mask is supplied. -/
def newChannelMask (s : Sinc) (m : Option (List Bool)) : List Bool :=
  match m with
  | some mask => mask
  | none => update_mask_from_buffers s.channel_mask

/-- Two states agree on every construction parameter, on the chunk sizes and
fill counter, and have ring buffers and masks of the same shape. -/
def SameConfig (s0 s : Sinc) : Prop :=
  s.nbr_channels = s0.nbr_channels ∧
  s.chunk_size = s0.chunk_size ∧
  s.max_chunk_size = s0.max_chunk_size ∧
  s.current_buffer_fill = s0.current_buffer_fill ∧
  s.resample_ratio_original = s0.resample_ratio_original ∧
  s.max_relative_ratio = s0.max_relative_ratio ∧
  s.interpolator = s0.interpolator ∧
  s.interpolation = s0.interpolation ∧
  s.fixed = s0.fixed ∧
  s.channel_mask.length = s0.channel_mask.length ∧
  s.buffer.map List.length = s0.buffer.map List.length

/-- The invariant behind the frames-next/frames-max bounds: the chunk size
never exceeds the construction-time maximum, and the derived size of the
fixed side equals a chunk size that was current at some point, hence is also
bounded by the maximum. -/
def ChunkInv (s : Sinc) : Prop :=
  s.chunk_size ≤ s.max_chunk_size ∧
  (s.fixed = .Input → s.needed_input_size ≤ s.max_chunk_size) ∧
  (s.fixed = .Output → s.needed_output_size ≤ s.max_chunk_size)

/-- An all-zero kernel stub of the given length and oversampling factor,
used to instantiate the abstract interpolator in concrete scenarios. -/
def zeroKernel (sinc_len oversampling : ℕ) : SincInterpolator where
  len := sinc_len
  nbr_sincs := oversampling
  get_sinc_interpolated := fun _ _ _ => 0

/-- A throwaway state used as the default of fallible extractions. -/
def fallbackSinc : Sinc where
  nbr_channels := 0
  chunk_size := 0
  max_chunk_size := 0
  needed_input_size := 0
  needed_output_size := 0
  last_index := 0
  current_buffer_fill := 0
  resample_ratio := 0
  resample_ratio_original := 0
  target_ratio := 0
  max_relative_ratio := 0
  interpolator := zeroKernel 0 0
  buffer := []
  interpolation := .Nearest
  channel_mask := []
  fixed := .Input

/-- Extract the state of a successful construction. -/
def sincOfExcept : Except ResamplerConstructionError Sinc → Sinc
  | .ok s => s
  | .error _ => fallbackSinc

/-- Scenario: one channel, ratio 1, chunk size 1, `Fixed::Input`. -/
def c1s : Sinc := sincOfExcept (new_with_interpolator 1 1 .Nearest (zeroKernel 8 1) 1 1 .Input)

/-- The state returned by the erroring `process_into_buffer` call of the C1 scenario. -/
def c1wState : Sinc :=
  match process_into_buffer c1s [] [] (some [false]) with
  | some r => r.2.1
  | none => c1s

/-- Scenario: `Fixed::Output`, ratio 6/5, chunk size 1024 (the configuration of
the repository test `check_fo_output_resize`). -/
def c2s : Sinc :=
  sincOfExcept (new_with_interpolator (6/5) 1 .Cubic (zeroKernel 64 16) 1024 2 .Output)

/-- Scenario: one channel, ratio 1, chunk size 4, `Fixed::Input`. -/
def c3s : Sinc := sincOfExcept (new_with_interpolator 1 1 .Nearest (zeroKernel 8 1) 4 1 .Input)

/-- Scenario: two channels, ratio 1, chunk size 1, `Fixed::Input`. -/
def c4s : Sinc := sincOfExcept (new_with_interpolator 1 1 .Nearest (zeroKernel 8 1) 1 2 .Input)

/-- Scenario: one channel, ratio 2, chunk size 20, `Fixed::Input`. -/
def c5sInit : Sinc :=
  sincOfExcept (new_with_interpolator 2 1 .Nearest (zeroKernel 8 1) 20 1 .Input)

/-- The C5 scenario state after one successfully processed chunk. -/
def c5sAfter : Sinc :=
  match procOk [List.replicate 20 0] [List.replicate 30 0] none c5sInit with
  | some s => s
  | none => c5sInit

/-- Scenario: a kernel of odd length 9 (legal through `new_with_interpolator`,
which accepts any interpolator), ratio 2, chunk size 6, `Fixed::Input`. -/
def c6sInit : Sinc :=
  sincOfExcept (new_with_interpolator 2 1 .Nearest (zeroKernel 9 1) 6 1 .Input)

/-- A one-chunk stream of six zero frames for the C6 scenario. -/
def c6Stream : List (Wave × Option (List Bool)) := [([List.replicate 6 0], none)]

/-- The C6 scenario state after processing the stream once. -/
def c6sAfter : Sinc :=
  match runProcess c6sInit c6Stream with
  | some r => r.2
  | none => c6sInit

/-- A one-chunk stream of four zero frames, for the C6 witness scenario. -/
def c6wStream : List (Wave × Option (List Bool)) := [([[0, 0, 0, 0]], none)]

/-- Results of running the C6 witness stream on the chunk-size-4 scenario. -/
def c6wRun : List (Except ResampleError Wave) × Sinc :=
  match runProcess c3s c6wStream with
  | some r => r
  | none => ([], c3s)

/-- Scenario: one channel, ratio 1, chunk size 12, `Fixed::Input`
(seven output frames in the first chunk). -/
def c7s : Sinc := sincOfExcept (new_with_interpolator 1 1 .Nearest (zeroKernel 8 1) 12 1 .Input)

/-- Outcome of the successful `process_into_buffer` call of the C7 scenario. -/
def c7result : Except ResampleError (ℕ × ℕ) × Sinc × Wave :=
  match process_into_buffer c7s [List.replicate 12 0] [List.replicate 7 0] none with
  | some r => r
  | none => (.ok (0, 0), c7s, [])

/-- Scenario: one channel, ratio 1, maximum relative ratio 10, chunk size 1,
`Fixed::Input`. -/
def c10sInit : Sinc :=
  sincOfExcept (new_with_interpolator 1 10 .Nearest (zeroKernel 8 1) 1 1 .Input)

/-- A legal operation sequence on the C10 scenario: set the ratio to 1/10,
process fourteen chunks (each consuming one frame and producing none, so the
cursor drifts backwards), then ramp the ratio to 10.  Every step returns `Ok`. -/
def c10sFinal : Option Sinc :=
  ((setRatioOk (1/10) false c10sInit).bind fun s =>
    (List.range 14).foldl (fun acc _ => acc.bind (procOk [[0]] [[]] none)) (some s)).bind
    (setRatioOk 10 true)

/-- The state reached by the C10 operation sequence. -/
def c10sVal : Sinc := c10sFinal.getD fallbackSinc

theorem sincProcessSample_t_ratio (s : Sinc) (st : LoopSt) (inc : ℚ) (n : ℕ) :
    (sincProcessSample s st inc n).t_ratio = st.t_ratio + inc := rfl

theorem sincProcessSample_idx (s : Sinc) (st : LoopSt) (inc : ℚ) (n : ℕ) :
    (sincProcessSample s st inc n).idx = st.idx + (st.t_ratio + inc) := rfl

theorem foldl_sincProcessSample (s : Sinc) (inc : ℚ) (k : ℕ) (st : LoopSt) :
    ((List.range k).foldl (fun acc n => sincProcessSample s acc inc n) st).t_ratio
        = st.t_ratio + k * inc ∧
    ((List.range k).foldl (fun acc n => sincProcessSample s acc inc n) st).idx
        = st.idx + ∑ n ∈ Finset.range k, (st.t_ratio + (n + 1) * inc) := by
  induction k with
  | zero => simp
  | succ m ih =>
    rw [List.range_succ, List.foldl_append]
    simp only [List.foldl_cons, List.foldl_nil]
    refine ⟨?_, ?_⟩
    · rw [sincProcessSample_t_ratio, ih.1]; push_cast; ring
    · rw [sincProcessSample_idx, ih.2, ih.1, Finset.sum_range_succ]; push_cast; ring

theorem foldl_sincProcessSample_idx (s : Sinc) (inc : ℚ) (k : ℕ) (st : LoopSt) :
    ((List.range k).foldl (fun acc n => sincProcessSample s acc inc n) st).idx
        = st.idx + ∑ n ∈ Finset.range k, (st.t_ratio + (n + 1) * inc) :=
  (foldl_sincProcessSample s inc k st).2

theorem core_error (s : Sinc) (win wout : Wave) (e : ResampleError) (s' : Sinc) (out' : Wave)
    (h : process_into_buffer_core s win wout = some (.error e, s', out')) :
    s' = s ∧ out' = wout := by
  unfold process_into_buffer_core at h
  cases hval : validate_buffers win wout s.channel_mask s.nbr_channels
      s.needed_input_size s.needed_output_size with
  | error e' =>
    rw [hval] at h
    simp only [Option.some.injEq, Prod.mk.injEq] at h
    exact ⟨h.2.1.symm, h.2.2.symm⟩
  | ok u =>
    rw [hval] at h
    dsimp only at h
    split at h
    · simp at h
    · simp at h

theorem core_ok_facts (s : Sinc) (win wout : Wave) (r : ℕ × ℕ) (s' : Sinc) (out' : Wave)
    (h : process_into_buffer_core s win wout = some (.ok r, s', out')) :
    r = (s.needed_input_size, s.needed_output_size) ∧
    s'.resample_ratio = s.target_ratio ∧
    s'.target_ratio = s.target_ratio ∧
    s'.last_index = s.last_index + (∑ n ∈ Finset.range s.needed_output_size,
        (1 / s.resample_ratio + (n + 1) *
          ((1 / s.target_ratio - 1 / s.resample_ratio) / (s.needed_output_size : ℚ))))
      - (s.needed_input_size : ℚ) := by
  unfold process_into_buffer_core at h
  cases hval : validate_buffers win wout s.channel_mask s.nbr_channels
      s.needed_input_size s.needed_output_size with
  | error e' => rw [hval] at h; simp at h
  | ok u =>
    rw [hval] at h
    dsimp only at h
    split at h
    · simp only [Option.some.injEq, Prod.mk.injEq, Except.ok.injEq] at h
      obtain ⟨hr, hs', hout⟩ := h
      subst hs'
      refine ⟨hr.symm, by simp [update_lengths], by simp [update_lengths], ?_⟩
      simp only [update_lengths]
      rw [foldl_sincProcessSample_idx]
    · simp at h

theorem process_into_buffer_lift (s : Sinc) (win wout : Wave) (m : Option (List Bool))
    (x : Except ResampleError (ℕ × ℕ) × Sinc × Wave)
    (h : process_into_buffer s win wout m = some x) :
    process_into_buffer_core
      { s with channel_mask := newChannelMask s m } win wout = some x := by
  cases m with
  | some mk =>
    simp only [process_into_buffer] at h
    split at h
    · exact h
    · simp at h
  | none => exact h

/-- C1: a `process_into_buffer` call that returns an error leaves the output
buffer and every internal field untouched, except the channel mask, which is
overwritten from the supplied mask (or set to all-true) before validation. -/
theorem C1_error_mutates_only_channel_mask (s : Sinc) (win wout : Wave)
    (m : Option (List Bool)) (e : ResampleError) (s' : Sinc) (out' : Wave)
    (h : process_into_buffer s win wout m = some (.error e, s', out')) :
    out' = wout ∧
    s' = { s with channel_mask := s'.channel_mask } ∧
    s'.channel_mask = newChannelMask s m := by
  have hc := process_into_buffer_lift s win wout m _ h
  obtain ⟨hs', hout⟩ := core_error _ win wout e s' out' hc
  subst hs'
  exact ⟨hout, rfl, rfl⟩

theorem C1_witness :
    process_into_buffer c1s [] [] (some [false]) =
      some (.error (.WrongNumberOfInputChannels 1 0), c1wState, []) ∧
    ([] : Wave) = [] ∧
    c1wState = { c1s with channel_mask := c1wState.channel_mask } ∧
    c1wState.channel_mask = [false] :=
  ⟨by rfl, (C1_error_mutates_only_channel_mask c1s [] [] (some [false]) _ c1wState [] (by rfl)).1,
    (C1_error_mutates_only_channel_mask c1s [] [] (some [false]) _ c1wState [] (by rfl)).2.1,
    (C1_error_mutates_only_channel_mask c1s [] [] (some [false]) _ c1wState [] (by rfl)).2.2⟩

theorem C1_counterexample :
    (process_into_buffer c1s [] [] (some [false])).map
        (fun r => (r.1, r.2.1.channel_mask)) =
      some (.error (.WrongNumberOfInputChannels 1 0), [false]) ∧
    c1s.channel_mask = [true] ∧ ([false] : List Bool) ≠ [true] := by
  refine ⟨by rfl, by rfl, by decide⟩

set_option maxRecDepth 100000 in
/-- C2: after a successful `set_chunk_size(256)` on the `Fixed::Output`
configuration of the repository test `check_fo_output_resize`, the stored
chunk size is 256 but `output_frames_next` still reports the stale 1024:
the derived sizes are not recomputed. -/
theorem C2_set_chunk_size_skips_update_lengths :
    (setChunkOk 256 c2s).map (fun s => (s.chunk_size, output_frames_next s)) =
      some (256, 1024) ∧ (1024 : ℕ) ≠ 256 :=
  ⟨by with_unfolding_all decide, by decide⟩

set_option maxRecDepth 100000 in
/-- C3: in `Fixed::Input` mode, after `set_chunk_size(2)` the next successful
`process_into_buffer` call still consumes 4 frames, not the current chunk
size 2. -/
theorem C3_consumed_count_not_current_chunk_size :
    ((setChunkOk 2 c3s).bind fun s =>
        (process_into_buffer s [[0, 0, 0, 0]] [[]] none).map fun r => (s.chunk_size, r.1)) =
      some (2, .ok (4, 0)) ∧ (4 : ℕ) ≠ 2 :=
  ⟨by with_unfolding_all decide, by decide⟩

/-- C4 (amended): a supplied channel mask whose length differs from the stored
channel mask makes `process_into_buffer` panic in `copy_from_slice` before any
validation; the `WrongNumberOfMaskChannels` error is never returned. -/
theorem C4_wrong_mask_length_panics (s : Sinc) (win wout : Wave) (mask : List Bool)
    (h : mask.length ≠ s.channel_mask.length) :
    process_into_buffer s win wout (some mask) = none := by
  unfold process_into_buffer
  simp [h]

theorem C4_witness :
    ([true] : List Bool).length ≠ c4s.channel_mask.length ∧
    process_into_buffer c4s [[0], [0]] [[], []] (some [true]) = none :=
  ⟨by decide, C4_wrong_mask_length_panics c4s [[0], [0]] [[], []] [true] (by decide)⟩

theorem C4_counterexample :
    process_into_buffer c4s [[0], [0]] [[], []] (some [true]) = none := by rfl

/-- C9: each polynomial inter-tap interpolator equals its closed form for all
tap values and all x, and satisfies the concrete spec test values. -/
theorem C9_interpolators_closed_form :
    (∀ (x : ℚ) (y : Fin 4 → ℚ), interp_cubic x y =
      y 1 + (-(y 0) / 3 - y 1 / 2 + y 2 - y 3 / 6) * x
        + ((y 0 + y 2) / 2 - y 1) * x ^ 2
        + ((y 1 - y 2) / 2 + (y 3 - y 0) / 6) * x ^ 3) ∧
    (∀ (x : ℚ) (y : Fin 3 → ℚ), interp_quad x y =
      (1/2) * (2 * y 0 + (-3 * y 0 + 4 * y 1 - y 2) * x + (y 0 - 2 * y 1 + y 2) * x ^ 2)) ∧
    (∀ (x : ℚ) (y : Fin 2 → ℚ), interp_lin x y = y 0 + x * (y 1 - y 0)) ∧
    interp_cubic (1/2) ![0, 2, 4, 6] = 3 ∧
    interp_lin (1/4) ![1, 5] = 2 ∧
    (∀ (x yv : ℚ), interp_quad x ![yv, yv, yv] = yv) := by
  refine ⟨?_, ?_, ?_, ?_, ?_, ?_⟩
  · intro x y; simp only [interp_cubic]; ring
  · intro x y; simp only [interp_quad]; ring
  · intro x y; simp only [interp_lin]
  · with_unfolding_all decide
  · with_unfolding_all decide
  · intro x yv
    simp only [interp_quad, Matrix.cons_val_zero, Matrix.cons_val_one, Matrix.head_cons,
      Matrix.cons_val_two, Matrix.tail_cons]
    ring


theorem processCursor_eq (s : Sinc) (k : ℕ) :
    processCursor s k = s.last_index + ∑ n ∈ Finset.range k,
      (1 / s.resample_ratio + (n + 1) *
        ((1 / s.target_ratio - 1 / s.resample_ratio) / (s.needed_output_size : ℚ))) := by
  unfold processCursor
  rw [foldl_sincProcessSample_idx]

/-- C7: after every successful `process_into_buffer` call, the returned pair is
the (needed_input_size, needed_output_size) in effect during the call, the new
resample ratio equals the target ratio, and the new `last_index` is the old one
plus the sum of the ramped steps minus `needed_input_size`. -/
theorem C7_post_state (s : Sinc) (win wout : Wave) (m : Option (List Bool))
    (r : ℕ × ℕ) (s' : Sinc) (out' : Wave)
    (h : process_into_buffer s win wout m = some (.ok r, s', out')) :
    r = (s.needed_input_size, s.needed_output_size) ∧
    s'.resample_ratio = s.target_ratio ∧
    s'.last_index = s.last_index + (∑ n ∈ Finset.range s.needed_output_size,
        (1 / s.resample_ratio + (n + 1) *
          ((1 / s.target_ratio - 1 / s.resample_ratio) / (s.needed_output_size : ℚ))))
      - (s.needed_input_size : ℚ) := by
  have hc := process_into_buffer_lift s win wout m _ h
  obtain ⟨h1, h2, h3, h4⟩ := core_ok_facts _ win wout r s' out' hc
  exact ⟨by simpa using h1, by simpa using h2, by simpa using h4⟩

theorem C7_witness :
    process_into_buffer c7s [List.replicate 12 0] [List.replicate 7 0] none =
      some (.ok (12, 7), c7result.2.1, c7result.2.2) ∧
    (12, 7) = (c7s.needed_input_size, c7s.needed_output_size) ∧
    c7result.2.1.resample_ratio = c7s.target_ratio ∧
    c7result.2.1.last_index = c7s.last_index + (∑ n ∈ Finset.range c7s.needed_output_size,
        (1 / c7s.resample_ratio + (n + 1) *
          ((1 / c7s.target_ratio - 1 / c7s.resample_ratio) / (c7s.needed_output_size : ℚ))))
      - (c7s.needed_input_size : ℚ) := by
  have h : process_into_buffer c7s [List.replicate 12 0] [List.replicate 7 0] none =
      some (.ok (12, 7), c7result.2.1, c7result.2.2) := by with_unfolding_all rfl
  have hf := C7_post_state c7s [List.replicate 12 0] [List.replicate 7 0] none
    (12, 7) c7result.2.1 c7result.2.2 h
  exact ⟨h, hf.1, hf.2.1, hf.2.2⟩

/-- C5 (amended): for a no-ramp chunk in `Fixed::Input` mode whose cursor
starts no lower than `−(sinc_len+1) − 1/resample_ratio` (which holds in every
state the processing loop produces), the cursor stays within
`[−(sinc_len+1), needed_input_size + sinc_len/2]` at every iteration. -/
theorem C5_cursor_bounds (s : Sinc)
    (hfix : s.fixed = .Input)
    (hr : 0 < s.resample_ratio)
    (heq : s.target_ratio = s.resample_ratio)
    (hN : s.needed_output_size = calculate_output_size s.needed_input_size s.resample_ratio
      s.target_ratio s.last_index s.interpolator.len s.fixed)
    (hli : -((s.interpolator.len : ℚ) + 1) - 1 / s.resample_ratio ≤ s.last_index)
    (k : ℕ) (hk1 : 1 ≤ k) (hkN : k ≤ s.needed_output_size) :
    -((s.interpolator.len : ℚ) + 1) ≤ processCursor s k ∧
      processCursor s k ≤ (s.needed_input_size : ℚ) + (s.interpolator.len : ℚ) / 2 := by
  have hcur : processCursor s k = s.last_index + k * (1 / s.resample_ratio) := by
    rw [processCursor_eq, heq]
    simp [Finset.sum_const, nsmul_eq_mul]
  have h1r : 0 < 1 / s.resample_ratio := by positivity
  have hk : (1 : ℚ) ≤ (k : ℚ) := by exact_mod_cast hk1
  constructor
  · rw [hcur]
    nlinarith [h1r, hk, hli]
  · rw [hcur]
    simp only [hfix, calculate_output_size, heq] at hN
    unfold f64_as_usize at hN
    set y : ℚ := ((s.needed_input_size : ℚ) - ((s.interpolator.len : ℚ) + 1) - s.last_index)
      * (1 / 2 * s.resample_ratio + 1 / 2 * s.resample_ratio) with hy
    have hN1 : 1 ≤ s.needed_output_size := le_trans hk1 hkN
    rw [hN] at hN1
    have hfl : 1 ≤ ⌊y⌋ := by omega
    have hNy : (s.needed_output_size : ℚ) ≤ y := by
      have hnn : (0 : ℤ) ≤ ⌊y⌋ := by omega
      have h2 : ((⌊y⌋.toNat : ℕ) : ℚ) = ((⌊y⌋ : ℤ) : ℚ) := by
        exact_mod_cast congrArg (Int.cast : ℤ → ℚ) (Int.toNat_of_nonneg hnn)
      rw [hN, h2]
      exact Int.floor_le y
    have hkNq : (k : ℚ) ≤ (s.needed_output_size : ℚ) := by exact_mod_cast hkN
    have hky : (k : ℚ) ≤ y := le_trans hkNq hNy
    have hyr : y * (1 / s.resample_ratio)
        = (s.needed_input_size : ℚ) - ((s.interpolator.len : ℚ) + 1) - s.last_index := by
      rw [hy]
      field_simp
    have hkr : (k : ℚ) * (1 / s.resample_ratio) ≤ y * (1 / s.resample_ratio) :=
      mul_le_mul_of_nonneg_right hky (le_of_lt h1r)
    have hL0 : (0 : ℚ) ≤ (s.interpolator.len : ℚ) := by positivity
    rw [hyr] at hkr
    linarith

theorem C5_witness :
    c7s.fixed = Fixed.Input ∧ (0 : ℚ) < c7s.resample_ratio ∧
    c7s.target_ratio = c7s.resample_ratio ∧
    c7s.needed_output_size = calculate_output_size c7s.needed_input_size c7s.resample_ratio
      c7s.target_ratio c7s.last_index c7s.interpolator.len c7s.fixed ∧
    -((c7s.interpolator.len : ℚ) + 1) - 1 / c7s.resample_ratio ≤ c7s.last_index ∧
    1 ≤ 1 ∧ 1 ≤ c7s.needed_output_size ∧
    (-((c7s.interpolator.len : ℚ) + 1) ≤ processCursor c7s 1 ∧
      processCursor c7s 1 ≤ (c7s.needed_input_size : ℚ) + (c7s.interpolator.len : ℚ) / 2) :=
  ⟨by with_unfolding_all rfl, by with_unfolding_all decide, by with_unfolding_all rfl,
    by with_unfolding_all decide, by with_unfolding_all decide, le_refl 1,
    by with_unfolding_all decide,
    C5_cursor_bounds c7s (by with_unfolding_all rfl) (by with_unfolding_all decide)
      (by with_unfolding_all rfl) (by with_unfolding_all decide)
      (by with_unfolding_all decide) 1 (le_refl 1) (by with_unfolding_all decide)⟩

set_option maxRecDepth 100000 in
theorem C5_counterexample :
    (procOk [List.replicate 20 0] [List.replicate 30 0] none c5sInit).map (fun s =>
        (s.interpolator.len, s.needed_input_size, s.needed_output_size,
          s.last_index, processCursor s 1)) =
      some (8, 20, 40, -9, -17/2) ∧
    (-17 / 2 : ℚ) < -(8 : ℚ) / 2 :=
  ⟨by with_unfolding_all decide, by norm_num⟩


theorem core_state_cases (s : Sinc) (win wout : Wave)
    (r : Except ResampleError (ℕ × ℕ)) (s' : Sinc) (out' : Wave)
    (h : process_into_buffer_core s win wout = some (r, s', out')) :
    s' = s ∨ ∃ b li, s' = update_lengths { s with
      buffer := b, last_index := li, resample_ratio := s.target_ratio } := by
  unfold process_into_buffer_core at h
  cases hval : validate_buffers win wout s.channel_mask s.nbr_channels
      s.needed_input_size s.needed_output_size with
  | error e' =>
    rw [hval] at h
    simp only [Option.some.injEq, Prod.mk.injEq] at h
    exact Or.inl h.2.1.symm
  | ok u =>
    rw [hval] at h
    dsimp only at h
    split at h
    · simp only [Option.some.injEq, Prod.mk.injEq] at h
      exact Or.inr ⟨_, _, h.2.1.symm⟩
    · simp at h

theorem chunkInv_update_lengths (s : Sinc) (h : s.chunk_size ≤ s.max_chunk_size) :
    ChunkInv (update_lengths s) := by
  refine ⟨by simpa [update_lengths] using h, ?_, ?_⟩
  · intro hfix
    simp only [update_lengths] at hfix ⊢
    simp [calculate_input_size, hfix, h]
  · intro hfix
    simp only [update_lengths] at hfix ⊢
    simp [calculate_output_size, hfix, h]

theorem chunkInv_core (s : Sinc) (win wout : Wave)
    (r : Except ResampleError (ℕ × ℕ)) (s' : Sinc) (out' : Wave)
    (h : process_into_buffer_core s win wout = some (r, s', out'))
    (hinv : ChunkInv s) : ChunkInv s' := by
  rcases core_state_cases s win wout r s' out' h with hcase | ⟨b, li, hcase⟩
  · exact hcase ▸ hinv
  · subst hcase
    exact chunkInv_update_lengths _ hinv.1

theorem chunkInv_process_into_buffer (s : Sinc) (win wout : Wave) (m : Option (List Bool))
    (r : Except ResampleError (ℕ × ℕ)) (s' : Sinc) (out' : Wave)
    (h : process_into_buffer s win wout m = some (r, s', out'))
    (hinv : ChunkInv s) : ChunkInv s' := by
  have hc := process_into_buffer_lift s win wout m _ h
  exact chunkInv_core _ win wout r s' out' hc
    ⟨hinv.1, fun hf => hinv.2.1 hf, fun hf => hinv.2.2 hf⟩

theorem chunkInv_set_resample_ratio (s : Sinc) (nr : ℚ) (ramp : Bool)
    (hinv : ChunkInv s) : ChunkInv (set_resample_ratio s nr ramp).2 := by
  unfold set_resample_ratio
  split
  · cases ramp <;> exact chunkInv_update_lengths _ hinv.1
  · exact hinv

theorem chunkInv_set_chunk_size (s : Sinc) (n : ℕ)
    (hinv : ChunkInv s) : ChunkInv (set_chunk_size s n).2 := by
  unfold set_chunk_size
  split
  · exact hinv
  · next hcond =>
    push_neg at hcond
    exact ⟨hcond.1, fun hf => hinv.2.1 hf, fun hf => hinv.2.2 hf⟩

theorem chunkInv_reset (s : Sinc) (_hinv : ChunkInv s) : ChunkInv (reset s) :=
  chunkInv_update_lengths _ le_rfl

theorem chunkInv_init (resample_ratio max_rel : ℚ) (ty : SincInterpolationType)
    (interp : SincInterpolator) (chunk_size nbr_channels : ℕ) (fixed : Fixed) (s : Sinc)
    (h : new_with_interpolator resample_ratio max_rel ty interp
      chunk_size nbr_channels fixed = .ok s) : ChunkInv s := by
  unfold new_with_interpolator at h
  cases hval : validate_ratios resample_ratio max_rel with
  | error e => rw [hval] at h; simp at h
  | ok u =>
    rw [hval] at h
    simp only [Except.ok.injEq] at h
    subst h
    refine ⟨le_rfl, ?_, ?_⟩
    · intro hfix
      simp only at hfix ⊢
      simp [calculate_input_size, hfix]
    · intro hfix
      simp only at hfix ⊢
      simp [calculate_output_size, hfix]

theorem reachable_chunkInv (s : Sinc) (hs : Reachable s) : ChunkInv s := by
  induction hs with
  | init r mx ty interp cs ch fx s h => exact chunkInv_init r mx ty interp cs ch fx s h
  | step_process s win wout m r s' out' hs h ih =>
      exact chunkInv_process_into_buffer s win wout m r s' out' h ih
  | step_set_ratio s nr ramp hs ih => exact chunkInv_set_resample_ratio s nr ramp ih
  | step_set_ratio_relative s rel ramp hs ih =>
      exact chunkInv_set_resample_ratio s _ ramp ih
  | step_set_chunk_size s n hs ih => exact chunkInv_set_chunk_size s n ih
  | step_reset s hs ih => exact chunkInv_reset s ih

/-- C10 (amended): in every reachable state, the fixed-side frame count never
exceeds its maximum: `input_frames_next ≤ input_frames_max` in `Fixed::Input`
mode and `output_frames_next ≤ output_frames_max` in `Fixed::Output` mode.
(The variable side can exceed its reported maximum after ratio changes.) -/
theorem C10_fixed_side_bounded (s : Sinc) (hs : Reachable s) :
    (s.fixed = .Input → input_frames_next s ≤ input_frames_max s) ∧
    (s.fixed = .Output → output_frames_next s ≤ output_frames_max s) := by
  have hinv := reachable_chunkInv s hs
  constructor
  · intro hfix
    have hb := hinv.2.1 hfix
    simpa [input_frames_next, input_frames_max, calculate_max_input_size, hfix] using hb
  · intro hfix
    have hb := hinv.2.2 hfix
    simpa [output_frames_next, output_frames_max, calculate_max_output_size, hfix] using hb

theorem C10_witness :
    Reachable c3s ∧ input_frames_next c3s ≤ input_frames_max c3s := by
  have hr : Reachable c3s :=
    Reachable.init 1 1 .Nearest (zeroKernel 8 1) 4 1 .Input c3s (by with_unfolding_all rfl)
  exact ⟨hr, (C10_fixed_side_bounded c3s hr).1 (by with_unfolding_all rfl)⟩

theorem setRatioOk_reachable {s s' : Sinc} {r : ℚ} {b : Bool}
    (hs : Reachable s) (h : setRatioOk r b s = some s') : Reachable s' := by
  unfold setRatioOk at h
  split at h
  · next u s2 heq =>
    have h2 : s' = (set_resample_ratio s r b).2 := by
      rw [heq]
      simpa using h.symm
    exact h2 ▸ Reachable.step_set_ratio s r b hs
  · simp at h

theorem procOk_reachable {s s' : Sinc} {win wout : Wave} {m : Option (List Bool)}
    (hs : Reachable s) (h : procOk win wout m s = some s') : Reachable s' := by
  unfold procOk at h
  split at h
  · next r s2 out2 heq =>
    simp only [Option.some.injEq] at h
    exact h ▸ Reachable.step_process s win wout m _ s2 out2 hs heq
  · simp at h

theorem bindChain_reachable (win wout : Wave) (m : Option (List Bool)) :
    ∀ (l : List ℕ) (acc : Option Sinc),
      (∀ s, acc = some s → Reachable s) →
      ∀ s', l.foldl (fun a _ => a.bind (procOk win wout m)) acc = some s' → Reachable s'
  | [], _, hacc, s', h => hacc s' h
  | _ :: t, acc, hacc, s', h => by
    refine bindChain_reachable win wout m t (acc.bind (procOk win wout m)) ?_ s' h
    intro s hs
    rcases acc with _ | s0
    · simp at hs
    · simp only [Option.some_bind] at hs
      exact procOk_reachable (hacc s0 rfl) hs

theorem c10sFinal_reachable (s' : Sinc) (h : c10sFinal = some s') : Reachable s' := by
  have h0 : Reachable c10sInit :=
    Reachable.init 1 10 .Nearest (zeroKernel 8 1) 1 1 .Input c10sInit
      (by with_unfolding_all rfl)
  unfold c10sFinal at h
  rcases h1 : setRatioOk (1/10) false c10sInit with _ | sA
  · rw [h1] at h; simp at h
  · rw [h1] at h
    simp only [Option.some_bind] at h
    have hA : Reachable sA := setRatioOk_reachable h0 h1
    rcases h2 : (List.range 14).foldl
        (fun acc _ => acc.bind (procOk [[0]] [[]] none)) (some sA) with _ | sB
    · rw [h2] at h; simp at h
    · have hB : Reachable sB := by
        refine bindChain_reachable [[0]] [[]] none (List.range 14) (some sA) ?_ sB h2
        intro s hsx
        simp only [Option.some.injEq] at hsx
        exact hsx ▸ hA
      rw [h2] at h
      simp only [Option.some_bind] at h
      exact setRatioOk_reachable hB h

set_option maxRecDepth 400000 in
theorem C10_counterexample :
    c10sFinal = some c10sVal ∧ Reachable c10sVal ∧
    c10sVal.fixed = Fixed.Input ∧
    output_frames_next c10sVal = 50 ∧ output_frames_max c10sVal = 20 ∧
    ¬ (output_frames_next c10sVal ≤ output_frames_max c10sVal) := by
  have h1 : c10sFinal = some c10sVal := by with_unfolding_all rfl
  refine ⟨h1, c10sFinal_reachable c10sVal h1, ?_, ?_, ?_, ?_⟩
  · with_unfolding_all rfl
  · with_unfolding_all decide
  · with_unfolding_all decide
  · with_unfolding_all decide


theorem padding_eq (input : Wave) (n frames : ℕ) :
    ((input.zip (List.replicate n (List.replicate frames (0:ℚ)))).map fun p =>
        let frames_in := min p.1.length frames
        if 0 < frames_in then p.1.take frames_in ++ p.2.drop frames_in else [])
      ++ (List.replicate n (List.replicate frames (0:ℚ))).drop input.length
    = (List.range n).map fun i =>
        match input[i]? with
        | none => List.replicate frames 0
        | some ch =>
            if ch.length = 0 then []
            else ch.take frames ++ List.replicate (frames - ch.length) 0 := by
  induction input generalizing n with
  | nil =>
      simp only [List.zip_nil_left, List.map_nil, List.nil_append, List.length_nil,
        List.drop_zero, List.getElem?_nil]
      rw [List.map_const']
      simp
  | cons ch input ih =>
      cases n with
      | zero => simp
      | succ m =>
          rw [List.replicate_succ, List.range_succ_eq_map]
          simp only [List.zip_cons_cons, List.map_cons, List.length_cons,
            List.drop_succ_cons, List.cons_append]
          congr 1
          · show (let frames_in := min ch.length frames;
                if 0 < frames_in then ch.take frames_in
                  ++ (List.replicate frames (0:ℚ)).drop frames_in else [])
              = (match (ch :: input)[0]? with
                | none => List.replicate frames 0
                | some c =>
                    if c.length = 0 then []
                    else c.take frames ++ List.replicate (frames - c.length) 0)
            simp only [List.getElem?_cons_zero]
            by_cases hch : ch.length = 0
            · have hnil : ch = [] := List.eq_nil_of_length_eq_zero hch
              subst hnil
              simp
            · by_cases hfr : frames = 0
              · subst hfr
                simp [hch]
              · have hpos : 0 < min ch.length frames :=
                  lt_min (Nat.pos_of_ne_zero hch) (Nat.pos_of_ne_zero hfr)
                simp only [if_pos hpos, if_neg hch]
                rcases le_or_lt ch.length frames with hle | hlt
                · rw [Nat.min_eq_left hle, List.drop_replicate,
                    List.take_of_length_le le_rfl, List.take_of_length_le hle]
                · rw [Nat.min_eq_right (Nat.le_of_lt hlt), List.drop_replicate, Nat.sub_self,
                    List.replicate_zero, Nat.sub_eq_zero_of_le (Nat.le_of_lt hlt),
                    List.replicate_zero]
          · rw [ih, List.map_map]
            refine List.map_congr_left ?_
            intro i _
            simp


/-- C8 (amended): `process_partial_into_buffer` equals `process_into_buffer`
on the padded input actually built by the source: channels beyond those
supplied are full zeros, an empty supplied channel stays empty (and therefore
fails validation when active and `input_frames_next > 0`), a nonempty
supplied channel is truncated to `input_frames_next` frames and zero-padded
to that length, and extra supplied channels are ignored; with no input, all
channels are full zeros. -/
theorem C8_partial_equals_padded (s : Sinc) (wave_in : Option Wave) (wave_out : Wave)
    (m : Option (List Bool)) :
    processPartialIntoBuffer s wave_in wave_out m =
      process_into_buffer s (sourcePadInput s wave_in) wave_out m := by
  cases wave_in with
  | none => rfl
  | some input =>
      unfold processPartialIntoBuffer sourcePadInput
      simp only
      rw [padding_eq]

theorem C8_counterexample :
    (processPartialIntoBuffer c3s (some [[]]) [[]] none).map (fun r => r.1) =
      some (.error (.InsufficientInputBufferSize 0 4 0)) ∧
    (process_into_buffer c3s (specZeroPadInput c3s (some [[]])) [[]] none).map (fun r => r.1) =
      some (.ok (4, 0)) ∧
    (Except.error (ResampleError.InsufficientInputBufferSize 0 4 0) :
        Except ResampleError (ℕ × ℕ)) ≠ .ok (4, 0) :=
  ⟨by with_unfolding_all decide, by with_unfolding_all decide, by decide⟩


theorem validate_buffers_ok (win wout : Wave) (mask : List Bool) (channels mi mo : ℕ)
    (h : validate_buffers win wout mask channels mi mo = .ok ()) :
    win.length = channels ∧ mask.length = channels ∧ wout.length = channels := by
  unfold validate_buffers at h
  split at h
  · simp at h
  · next h1 =>
    split at h
    · simp at h
    · next h2 =>
      split at h
      · simp at h
      · split at h
        · simp at h
        · next h3 =>
          exact ⟨by omega, by omega, by omega⟩

theorem copy_within_length (buf : Buf) (start len2 : ℕ) (h : start + len2 ≤ buf.length) :
    (copy_within buf start len2).length = buf.length := by
  unfold copy_within
  rw [List.length_append, List.length_take, List.length_drop, List.length_drop]
  omega

theorem set_slice_length (dest : Buf) (start : ℕ) (src : Buf)
    (h : start + src.length ≤ dest.length) :
    (set_slice dest start src).length = dest.length := by
  unfold set_slice
  rw [List.length_append, List.length_append, List.length_take, List.length_drop]
  omega

theorem shift_map_length (bufs : Wave) (I L2 : ℕ)
    (hb : ∀ b ∈ bufs, I + L2 ≤ b.length) :
    ((bufs.map fun b => copy_within b I L2).map List.length) = bufs.map List.length := by
  rw [List.map_map]
  refine List.map_congr_left ?_
  intro b hbmem
  exact copy_within_length b I L2 (hb b hbmem)

theorem ingest_map_length (mask : List Bool) (bufs win : Wave) (start needed : ℕ)
    (hm : bufs.length ≤ mask.length) (hw : bufs.length ≤ win.length)
    (hb : ∀ b ∈ bufs, needed + start ≤ b.length) :
    (ingest mask bufs win start needed).map List.length = bufs.map List.length := by
  induction bufs generalizing mask win with
  | nil => cases mask <;> cases win <;> simp [ingest]
  | cons b bs ih =>
      cases mask with
      | nil => simp at hm
      | cons a ms =>
        cases win with
        | nil => simp at hw
        | cons w ws =>
          simp only [ingest, List.zip_cons_cons, List.map_cons]
          congr 1
          · cases a with
            | false => simp
            | true =>
                simp only [if_true]
                have h1 := hb b (List.mem_cons_self b bs)
                have h2 : (w.take needed).length = min needed w.length := List.length_take needed w
                exact set_slice_length b start (w.take needed) (by omega)
          · have := ih ms ws (by simpa using hm) (by simpa using hw)
              (fun x hx => hb x (List.mem_cons_of_mem b hx))
            simpa [ingest] using this

theorem process_into_buffer_some_mask_length (s : Sinc) (win wout : Wave)
    (m : Option (List Bool)) (x : Except ResampleError (ℕ × ℕ) × Sinc × Wave)
    (h : process_into_buffer s win wout m = some x) :
    (newChannelMask s m).length = s.channel_mask.length := by
  cases m with
  | some mk =>
    simp only [process_into_buffer] at h
    split at h
    · next hlen => simpa [newChannelMask] using hlen
    · simp at h
  | none => simp [newChannelMask, update_mask_from_buffers]

theorem core_config (s : Sinc) (win wout : Wave)
    (r : Except ResampleError (ℕ × ℕ)) (s' : Sinc) (out' : Wave)
    (h : process_into_buffer_core s win wout = some (r, s', out')) :
    s'.nbr_channels = s.nbr_channels ∧ s'.chunk_size = s.chunk_size ∧
    s'.max_chunk_size = s.max_chunk_size ∧ s'.current_buffer_fill = s.current_buffer_fill ∧
    s'.resample_ratio_original = s.resample_ratio_original ∧
    s'.max_relative_ratio = s.max_relative_ratio ∧ s'.interpolator = s.interpolator ∧
    s'.interpolation = s.interpolation ∧ s'.fixed = s.fixed ∧
    s'.channel_mask = s.channel_mask := by
  rcases core_state_cases s win wout r s' out' h with hc | ⟨b, li, hc⟩ <;> subst hc <;>
    simp [update_lengths]

theorem core_buffer_shape (s : Sinc) (win wout : Wave)
    (r : Except ResampleError (ℕ × ℕ)) (s' : Sinc) (out' : Wave)
    (h : process_into_buffer_core s win wout = some (r, s', out'))
    (hbl : s.buffer.length ≤ s.nbr_channels) :
    s'.buffer.map List.length = s.buffer.map List.length := by
  unfold process_into_buffer_core at h
  cases hval : validate_buffers win wout s.channel_mask s.nbr_channels
      s.needed_input_size s.needed_output_size with
  | error e =>
    rw [hval] at h
    simp only [Option.some.injEq, Prod.mk.injEq] at h
    rw [← h.2.1]
  | ok u =>
    cases u
    have hv := validate_buffers_ok win wout s.channel_mask s.nbr_channels
      s.needed_input_size s.needed_output_size hval
    rw [hval] at h
    dsimp only at h
    split at h
    · next hrange =>
      simp only [Option.some.injEq, Prod.mk.injEq] at h
      obtain ⟨_, hs', _⟩ := h
      subst hs'
      simp only [update_lengths]
      rw [ingest_map_length, shift_map_length]
      · exact hrange
      · rw [List.length_map]
        omega
      · rw [List.length_map]
        omega
      · intro b hbmem
        rw [List.mem_map] at hbmem
        obtain ⟨b0, hb0, hbeq⟩ := hbmem
        rw [← hbeq, copy_within_length b0 _ _ (hrange b0 hb0)]
        exact hrange b0 hb0
    · simp at h

theorem map_zero_of_map_length (l : Wave) (n bl : ℕ)
    (h : l.map List.length = (List.replicate n (List.replicate bl (0:ℚ))).map List.length) :
    l.map (fun ch => ch.map fun _ => (0:ℚ)) = List.replicate n (List.replicate bl 0) := by
  rw [List.map_replicate, List.length_replicate] at h
  induction l generalizing n with
  | nil =>
      cases n with
      | zero => rfl
      | succ k => simp at h
  | cons c cs ih =>
      cases n with
      | zero => simp at h
      | succ k =>
          rw [List.replicate_succ] at h ⊢
          simp only [List.map_cons, List.cons.injEq] at h ⊢
          obtain ⟨hc, hcs⟩ := h
          exact ⟨by rw [List.map_const', hc], ih k hcs⟩

theorem nat_half_cast (L : ℕ) (hL : L % 2 = 0) : ((L / 2 : ℕ) : ℚ) = (L : ℚ) / 2 := by
  have h2 : 2 * (L / 2) = L := by omega
  have h3 : ((2 * (L / 2) : ℕ) : ℚ) = (L : ℚ) := by exact_mod_cast congrArg Nat.cast h2
  push_cast at h3
  linarith

theorem new_with_interpolator_ok (r mx : ℚ) (ty : SincInterpolationType)
    (interp : SincInterpolator) (cs ch : ℕ) (fx : Fixed) (s0 : Sinc)
    (h : new_with_interpolator r mx ty interp cs ch fx = .ok s0) :
    s0 = { nbr_channels := ch, chunk_size := cs, max_chunk_size := cs,
           needed_input_size :=
             calculate_input_size cs r r (-(interp.len : ℚ) / 2) interp.len fx,
           needed_output_size :=
             calculate_output_size cs r r (-(interp.len : ℚ) / 2) interp.len fx,
           last_index := -((interp.len / 2 : ℕ) : ℚ),
           current_buffer_fill :=
             calculate_input_size cs r r (-(interp.len : ℚ) / 2) interp.len fx,
           resample_ratio := r, resample_ratio_original := r, target_ratio := r,
           max_relative_ratio := mx, interpolator := interp,
           buffer := List.replicate ch (List.replicate
             (calculate_max_input_size cs r mx interp.len fx + 2 * interp.len) 0),
           interpolation := ty, channel_mask := List.replicate ch true, fixed := fx } := by
  unfold new_with_interpolator at h
  cases hval : validate_ratios r mx with
  | error e => rw [hval] at h; simp at h
  | ok u =>
    rw [hval] at h
    simp only [Except.ok.injEq] at h
    exact h.symm


theorem pib_sameConfig (s0 s : Sinc) (win wout : Wave) (m : Option (List Bool))
    (x : Except ResampleError (ℕ × ℕ) × Sinc × Wave)
    (hcfg : SameConfig s0 s)
    (hch : s0.buffer.length = s0.nbr_channels)
    (h : process_into_buffer s win wout m = some x) :
    SameConfig s0 x.2.1 := by
  obtain ⟨r, s', out'⟩ := x
  have hc := process_into_buffer_lift s win wout m _ h
  have hmlen := process_into_buffer_some_mask_length s win wout m _ h
  obtain ⟨c1, c2, c3, c4, c5, c6, c7, c8, c9, c10, c11⟩ := hcfg
  have hlen : s.buffer.length = s0.buffer.length := by
    have h2 := congrArg List.length c11
    simpa using h2
  have hbl : ({ s with channel_mask := newChannelMask s m } : Sinc).buffer.length
      ≤ ({ s with channel_mask := newChannelMask s m } : Sinc).nbr_channels := by
    show s.buffer.length ≤ s.nbr_channels
    omega
  obtain ⟨d1, d2, d3, d4, d5, d6, d7, d8, d9, d10⟩ := core_config _ win wout r s' out' hc
  have hshape := core_buffer_shape _ win wout r s' out' hc hbl
  refine ⟨d1.trans c1, d2.trans c2, d3.trans c3, d4.trans c4, d5.trans c5, d6.trans c6,
    d7.trans c7, d8.trans c8, d9.trans c9, ?_, hshape.trans c11⟩
  rw [d10]
  exact hmlen.trans c10

theorem process_state_eq (s : Sinc) (win : Wave) (m : Option (List Bool))
    (r : Except ResampleError Wave) (s' : Sinc)
    (h : process s win m = some (r, s')) :
    ∃ wout x, process_into_buffer s win wout m = some x ∧ s' = x.2.1 := by
  unfold process at h
  cases m with
  | none =>
      dsimp only at h
      rcases hp : process_into_buffer s win
          (List.replicate s.nbr_channels (List.replicate (output_frames_next s) 0)) none
        with _ | x
      · rw [hp] at h; simp at h
      · rw [hp] at h
        obtain ⟨re, s2, o2⟩ := x
        cases re with
        | error e =>
            simp only [Option.some.injEq, Prod.mk.injEq] at h
            exact ⟨_, _, hp, h.2.symm⟩
        | ok rr =>
            simp only [Option.some.injEq, Prod.mk.injEq] at h
            exact ⟨_, _, hp, h.2.symm⟩
  | some mk =>
      dsimp only at h
      by_cases hnm : s.nbr_channels ≤ mk.length
      · rw [if_pos hnm] at h
        dsimp only at h
        rcases hp : process_into_buffer s win
            ((List.range s.nbr_channels).map fun chan =>
              if mk.getD chan false then List.replicate (output_frames_next s) 0 else [])
            (some mk)
          with _ | x
        · rw [hp] at h; simp at h
        · rw [hp] at h
          obtain ⟨re, s2, o2⟩ := x
          cases re with
          | error e =>
              simp only [Option.some.injEq, Prod.mk.injEq] at h
              exact ⟨_, _, hp, h.2.symm⟩
          | ok rr =>
              simp only [Option.some.injEq, Prod.mk.injEq] at h
              exact ⟨_, _, hp, h.2.symm⟩
      · rw [if_neg hnm] at h
        simp at h

theorem process_sameConfig (s0 s : Sinc) (win : Wave) (m : Option (List Bool))
    (r : Except ResampleError Wave) (s' : Sinc)
    (hcfg : SameConfig s0 s) (hch : s0.buffer.length = s0.nbr_channels)
    (h : process s win m = some (r, s')) : SameConfig s0 s' := by
  obtain ⟨wout, x, hp, hs'⟩ := process_state_eq s win m r s' h
  exact hs' ▸ pib_sameConfig s0 s win wout m x hcfg hch hp

theorem runProcess_sameConfig (s0 : Sinc)
    (hch : s0.buffer.length = s0.nbr_channels)
    (S : List (Wave × Option (List Bool))) :
    ∀ (s : Sinc), SameConfig s0 s →
      ∀ outs s1, runProcess s S = some (outs, s1) → SameConfig s0 s1 := by
  induction S with
  | nil =>
      intro s hcfg outs s1 h
      simp only [runProcess, Option.some.injEq, Prod.mk.injEq] at h
      exact h.2 ▸ hcfg
  | cons c rest ih =>
      intro s hcfg outs s1 h
      simp only [runProcess] at h
      rcases hp : process s c.1 c.2 with _ | ⟨r, s'⟩
      · rw [hp] at h; simp at h
      · rw [hp] at h
        dsimp only at h
        rcases hrun : runProcess s' rest with _ | ⟨rs, sf⟩
        · rw [hrun] at h; simp at h
        · rw [hrun] at h
          simp only [Option.some.injEq, Prod.mk.injEq] at h
          have hcfg2 := process_sameConfig s0 s c.1 c.2 r s' hcfg hch hp
          exact h.2 ▸ ih s' hcfg2 rs sf hrun

theorem reset_eq_init (r mx : ℚ) (ty : SincInterpolationType) (interp : SincInterpolator)
    (cs ch : ℕ) (fx : Fixed) (s0 s1 : Sinc)
    (hL : interp.len % 2 = 0)
    (hcon : new_with_interpolator r mx ty interp cs ch fx = .ok s0)
    (hcfg : SameConfig s0 s1) : reset s1 = s0 := by
  have hs0 := new_with_interpolator_ok r mx ty interp cs ch fx s0 hcon
  obtain ⟨c1, c2, c3, c4, c5, c6, c7, c8, c9, c10, c11⟩ := hcfg
  have hhalf : ((interp.len / 2 : ℕ) : ℚ) = (interp.len : ℚ) / 2 := nat_half_cast _ hL
  apply Sinc.ext
  · simp only [reset, update_lengths]
    rw [c1]
  · simp only [reset, update_lengths]
    rw [c3, hs0]
  · simp only [reset, update_lengths]
    rw [c3]
  · simp only [reset, update_lengths]
    rw [c3, c5, c7, c9, hs0]
    simp only
    rw [hhalf, neg_div]
  · simp only [reset, update_lengths]
    rw [c3, c5, c7, c9, hs0]
    simp only
    rw [hhalf, neg_div]
  · simp only [reset, update_lengths]
    rw [c7, hs0]
  · simp only [reset, update_lengths]
    rw [c4]
  · simp only [reset, update_lengths]
    rw [c5, hs0]
  · simp only [reset, update_lengths]
    rw [c5, hs0]
  · simp only [reset, update_lengths]
    rw [c5, hs0]
  · simp only [reset, update_lengths]
    rw [c6]
  · simp only [reset, update_lengths]
    rw [c7]
  · simp only [reset, update_lengths]
    have hbuf : s1.buffer.map List.length = (List.replicate ch (List.replicate
        (calculate_max_input_size cs r mx interp.len fx + 2 * interp.len) (0:ℚ))).map
          List.length := by
      rw [c11, hs0]
    rw [map_zero_of_map_length s1.buffer _ _ hbuf, hs0]
  · simp only [reset, update_lengths]
    rw [c8]
  · simp only [reset, update_lengths]
    rw [List.map_const']
    have hmlen : s1.channel_mask.length = ch := by
      rw [c10, hs0]
      simp
    rw [hmlen, hs0]
  · simp only [reset, update_lengths]
    rw [c9]

/-- C6 (amended): for a kernel of even length (as produced by
`make_interpolator`, which rounds `sinc_len` up to a multiple of 8),
constructing a resampler, processing any stream, and calling `reset` restores
exactly the freshly constructed state, so processing the stream again yields
sample-for-sample the same outputs and the same consumed/produced counts. -/
theorem C6_reset_then_reprocess (resample_ratio max_rel : ℚ) (ty : SincInterpolationType)
    (interp : SincInterpolator) (chunk_size nbr_channels : ℕ) (fixed : Fixed) (s0 : Sinc)
    (hL : interp.len % 2 = 0)
    (hcon : new_with_interpolator resample_ratio max_rel ty interp chunk_size
      nbr_channels fixed = .ok s0)
    (S : List (Wave × Option (List Bool)))
    (outs : List (Except ResampleError Wave)) (s1 : Sinc)
    (hrun : runProcess s0 S = some (outs, s1)) :
    reset s1 = s0 ∧ runProcess (reset s1) S = some (outs, s1) := by
  have hs0 := new_with_interpolator_ok resample_ratio max_rel ty interp chunk_size
    nbr_channels fixed s0 hcon
  have hch : s0.buffer.length = s0.nbr_channels := by
    rw [hs0]
    simp
  have hrefl : SameConfig s0 s0 := ⟨rfl, rfl, rfl, rfl, rfl, rfl, rfl, rfl, rfl, rfl, rfl⟩
  have hcfg := runProcess_sameConfig s0 hch S s0 hrefl outs s1 hrun
  have hreset := reset_eq_init resample_ratio max_rel ty interp chunk_size
    nbr_channels fixed s0 s1 hL hcon hcfg
  exact ⟨hreset, by rw [hreset]; exact hrun⟩

theorem C6_witness :
    (zeroKernel 8 1).len % 2 = 0 ∧
    new_with_interpolator 1 1 .Nearest (zeroKernel 8 1) 4 1 .Input = .ok c3s ∧
    runProcess c3s c6wStream = some (c6wRun.1, c6wRun.2) ∧
    reset c6wRun.2 = c3s ∧
    runProcess (reset c6wRun.2) c6wStream = some (c6wRun.1, c6wRun.2) := by
  have h1 : new_with_interpolator 1 1 .Nearest (zeroKernel 8 1) 4 1 .Input = .ok c3s := by
    with_unfolding_all rfl
  have h2 : runProcess c3s c6wStream = some (c6wRun.1, c6wRun.2) := by
    with_unfolding_all rfl
  have hthm := C6_reset_then_reprocess 1 1 .Nearest (zeroKernel 8 1) 4 1 .Input c3s
    (by decide) h1 c6wStream c6wRun.1 c6wRun.2 h2
  exact ⟨by decide, h1, h2, hthm.1, hthm.2⟩

theorem C6_counterexample :
    (runProcess c6sInit c6Stream).map (fun p => p.1) = some [.ok [[0]]] ∧
    ((runProcess c6sInit c6Stream).bind fun p =>
        (runProcess (reset p.2) c6Stream).map fun p2 => p2.1) = some [.ok [[]]] ∧
    ([Except.ok [[(0:ℚ)]]] : List (Except ResampleError Wave)) ≠ [.ok [[]]] :=
  ⟨by with_unfolding_all decide, by with_unfolding_all decide, by decide⟩

end Rubato
